import Mathlib

/-!
# Lazy singletons and the spin-locked logger

A shallow embedding of `pattern/Singleton.h` and `logger/logger.h`:

* the seven `getInstance` bodies of `Singleton.h` as functions on the static
  members of their class, with the free store and the outcome of `new` explicit;
* `Logger::getInstance` and `Logger::debug` as functions on the logger's statics,
  the file `log.log` and the console;
* the double-checked-locking body as a small-step machine run by `N` threads
  under an arbitrary schedule.
-/

namespace tvp

/-! ## Common vocabulary -/

/-- A `std::string`: a finite sequence of characters. -/
abbrev Str := List Char

/-- An address in the free store; `0` is `nullptr`, the `k`-th object ever
allocated lives at address `k + 1`. -/
abbrev Addr := Nat

/-- What a reference or pointer handed out by `getInstance` designates: the
function-local static object, or an address of the free store. -/
inductive Ref where
  | staticLocal : Ref
  | heap (a : Addr) : Ref
  deriving DecidableEq, Repr

/-- How a call ends. `returned v`: normal return with value `v`.
`threw`: a `std::bad_alloc` leaves the call and reaches the call site.
`terminated`: `std::terminate` was called (an exception met a `noexcept`
boundary). `blocked`: the call waits for a lock that is held and never
released by anybody in a sequential run. -/
inductive Outcome (α : Type) where
  | returned (v : α) : Outcome α
  | threw : Outcome α
  | terminated : Outcome α
  | blocked : Outcome α
  deriving DecidableEq, Repr

/-! ## `pattern/Singleton.h` -/

/-- An object of one of the `Singleton` classes: its only data member. -/
structure Singleton where
  mId : Nat
  deriving DecidableEq, Repr

/-- `unsigned int getId() const noexcept { return mId; }` (class `onceflag::Singleton`). -/
def Singleton.getId (self : Singleton) : Nat := self.mId

/-- The static members of one `Singleton` class together with the free store
they point into, and two observation counters.

* `localInstance` – the function-local `static Singleton instance(k)`; `none` until
  control first passes through its declaration;
* `mInstance` – the static pointer (atomic or plain), `0` when null;
* `mMutex` – `true` while the `std::mutex` is held;
* `mOnceFlag` – `true` once `std::call_once` has completed a call;
* `heap` – the objects created by `new`, in allocation order;
* `ctorRuns` – how many times a constructor body has run;
* `lockAcqs` – how many times a `std::lock_guard` has been constructed. -/
structure Statics where
  localInstance : Option Singleton
  mInstance : Addr
  mMutex : Bool
  mOnceFlag : Bool
  heap : List Singleton
  ctorRuns : Nat
  lockAcqs : Nat
  deriving DecidableEq, Repr

/-- Program start: nothing constructed, null pointer, free mutex, unset flag. -/
def Statics.fresh : Statics :=
  { localInstance := none, mInstance := 0, mMutex := false, mOnceFlag := false,
    heap := [], ctorRuns := 0, lockAcqs := 0 }

/-- The object a reference designates in a given state. -/
def Statics.deref (s : Statics) : Ref → Option Singleton
  | Ref.staticLocal => s.localInstance
  | Ref.heap a => if a = 0 then none else s.heap[a - 1]?

/-- The effect of `new Singleton(id)` when the allocation succeeds: the
constructor body runs once, the object is appended to the free store, and its
(non-null) address is the value of the expression. -/
def Statics.newSingleton (s : Statics) (id : Nat) : Addr × Statics :=
  (s.heap.length + 1,
    { s with heap := s.heap ++ [{ mId := id }], ctorRuns := s.ctorRuns + 1 })

/-- The initialisation of a function-local `static Singleton instance(id);` the
first time control passes through it: the constructor body runs once. -/
def Statics.initLocal (s : Statics) (id : Nat) : Statics :=
  { s with localInstance := some { mId := id }, ctorRuns := s.ctorRuns + 1 }

/-- Construction of a `std::lock_guard<std::mutex>` on a free mutex. -/
def Statics.lockGuard (s : Statics) : Statics :=
  { s with mMutex := true, lockAcqs := s.lockAcqs + 1 }

/-- Destruction of the `std::lock_guard`: the mutex is released. -/
def Statics.unlock (s : Statics) : Statics :=
  { s with mMutex := false }

/-- The shared body of the three double-checked-locking `getInstance`
functions, which differ in the constructor argument and in the memory orders
of the loads and the store only; a sequential run does not see the latter.
`allocOk` tells whether the `new` expression, if reached, obtains memory. -/
def dclGetInstance (id : Nat) (s : Statics) (allocOk : Bool) : Outcome Ref × Statics :=
  let sin := s.mInstance                       -- Singleton* sin = mInstance.load(..)
  if sin ≠ 0 then
    (Outcome.returned (Ref.heap sin), s)       -- return sin
  else if s.mMutex then
    (Outcome.blocked, s)                       -- lock_guard waits
  else
    let s1 := s.lockGuard                      -- std::lock_guard<std::mutex> lk(mMutex)
    let sin := s1.mInstance                    -- sin = mInstance.load(..)
    if sin ≠ 0 then
      (Outcome.returned (Ref.heap sin), s1.unlock)
    else if allocOk then
      let r := s1.newSingleton id              -- sin = new Singleton(id)
      let s3 := { r.2 with mInstance := r.1 }  -- mInstance.store(sin, ..)
      (Outcome.returned (Ref.heap r.1), s3.unlock)
    else
      (Outcome.threw, s1.unlock)               -- bad_alloc unwinds through lk

/-- The body of both function-local-static `getInstance` functions:
`static Singleton instance(id); return instance;`. Nothing is allocated. -/
def staticGetInstance (id : Nat) (s : Statics) : Outcome Ref × Statics :=
  match s.localInstance with
  | some _ => (Outcome.returned Ref.staticLocal, s)
  | none => (Outcome.returned Ref.staticLocal, s.initLocal id)

namespace singlethread
/-- The function `singlethread::Singleton::getInstance`. -/
def Singleton.getInstance (s : Statics) (_allocOk : Bool) : Outcome Ref × Statics :=
  staticGetInstance 1 s
end singlethread

namespace scottmayer
/-- The function `scottmayer::Singleton::getInstance`. -/
def Singleton.getInstance (s : Statics) (_allocOk : Bool) : Outcome Ref × Statics :=
  staticGetInstance 2 s
end scottmayer

namespace relax
/-- The function `relax::Singleton::getInstance`. -/
def Singleton.getInstance (s : Statics) (allocOk : Bool) : Outcome Ref × Statics :=
  dclGetInstance 3 s allocOk
end relax

namespace acqrel
/-- The function `acqrel::Singleton::getInstance`. -/
def Singleton.getInstance (s : Statics) (allocOk : Bool) : Outcome Ref × Statics :=
  dclGetInstance 4 s allocOk
end acqrel

namespace seqcst
/-- The function `seqcst::Singleton::getInstance`. -/
def Singleton.getInstance (s : Statics) (allocOk : Bool) : Outcome Ref × Statics :=
  dclGetInstance 5 s allocOk
end seqcst

namespace onceflag
/-- The function `static void initSingleton() noexcept { mInstance = new Singleton(6); }`.
The result is `none` when the allocation fails: the exception cannot leave a
`noexcept` function, so `std::terminate` is called. -/
def Singleton.initSingleton (s : Statics) (allocOk : Bool) : Option Statics :=
  if allocOk then
    let r := s.newSingleton 6
    some { r.2 with mInstance := r.1 }
  else
    none

/-- The function `onceflag::Singleton::getInstance`:
`std::call_once(mOnceFlag, Singleton::initSingleton); return *mInstance;`. -/
def Singleton.getInstance (s : Statics) (allocOk : Bool) : Outcome Ref × Statics :=
  if s.mOnceFlag then
    (Outcome.returned (Ref.heap s.mInstance), s)
  else
    match Singleton.initSingleton s allocOk with
    | some s1 =>
      let s2 := { s1 with mOnceFlag := true }
      (Outcome.returned (Ref.heap s2.mInstance), s2)
    | none => (Outcome.terminated, s)
end onceflag

namespace lock
/-- The function `lock::Singleton::getInstance`: the mutex is taken on every call. -/
def Singleton.getInstance (s : Statics) (allocOk : Bool) : Outcome Ref × Statics :=
  if s.mMutex then
    (Outcome.blocked, s)
  else
    let s1 := s.lockGuard                      -- std::lock_guard<std::mutex> lk(mMutex)
    if s1.mInstance ≠ 0 then
      (Outcome.returned (Ref.heap s1.mInstance), s1.unlock)
    else if allocOk then
      let r := s1.newSingleton 7               -- mInstance = new Singleton(7)
      let s3 := { r.2 with mInstance := r.1 }
      (Outcome.returned (Ref.heap s3.mInstance), s3.unlock)
    else
      (Outcome.threw, s1.unlock)
end lock

/-- The seven strategies of `Singleton.h`, by namespace. -/
inductive Variant where
  | singlethread | scottmayer | relax | acqrel | seqcst | onceflag | lock
  deriving DecidableEq, Repr

/-- The `getInstance` of a strategy. -/
def getInstance : Variant → Statics → Bool → Outcome Ref × Statics
  | Variant.singlethread => singlethread.Singleton.getInstance
  | Variant.scottmayer => scottmayer.Singleton.getInstance
  | Variant.relax => relax.Singleton.getInstance
  | Variant.acqrel => acqrel.Singleton.getInstance
  | Variant.seqcst => seqcst.Singleton.getInstance
  | Variant.onceflag => onceflag.Singleton.getInstance
  | Variant.lock => lock.Singleton.getInstance

/-- The construction state of a strategy: `none` is Uninitialized, `some r` is
Initialized with the instance designated by `r`. It is read off the function-local
static, the one-time flag, or the static pointer, depending on the strategy. -/
def constructionState : Variant → Statics → Option Ref
  | Variant.singlethread, s => s.localInstance.map (fun _ => Ref.staticLocal)
  | Variant.scottmayer, s => s.localInstance.map (fun _ => Ref.staticLocal)
  | Variant.onceflag, s => if s.mOnceFlag then some (Ref.heap s.mInstance) else none
  | _, s => if s.mInstance = 0 then none else some (Ref.heap s.mInstance)

/-- Calls made one after another: the `k`-th call is made in the state the
previous one left, with the `k`-th entry of the list telling whether an
allocation requested by that call succeeds. The result lists, per call, its
outcome and the state after it. -/
def callTrace (v : Variant) : Statics → List Bool → List (Outcome Ref × Statics)
  | _, [] => []
  | s, o :: os => getInstance v s o :: callTrace v (getInstance v s o).2 os

/-- The three double-checked-locking strategies of `Singleton.h`. -/
def dclVariants : List Variant := [Variant.relax, Variant.acqrel, Variant.seqcst]

/-- The strategies whose `getInstance` contains a `new` expression directly,
outside any `noexcept` function. -/
def throwingVariants : List Variant :=
  [Variant.relax, Variant.acqrel, Variant.seqcst, Variant.lock]

/-- The strategies built on a function-local static object. -/
def staticVariants : List Variant := [Variant.singlethread, Variant.scottmayer]

/-- The tag each strategy's instance is expected to carry. -/
def expectedTag : Variant → Nat
  | Variant.singlethread => 1
  | Variant.scottmayer => 2
  | Variant.relax => 3
  | Variant.acqrel => 4
  | Variant.seqcst => 5
  | Variant.onceflag => 6
  | Variant.lock => 7

/-! ## `logger/logger.h` -/

/-- The constant `DEBUG_LEVEL = u8"debug"`. -/
def DEBUG_LEVEL : Str := "debug".toList

/-- The constant `INFO_LEVEL = u8"info"`. -/
def INFO_LEVEL : Str := "info".toList

/-- The constant `ERROR_LEVEL = u8"error"`. -/
def ERROR_LEVEL : Str := "error".toList

/-- The file `log.log` as the file system holds it: its content, and whether
the process is able to open it for writing. -/
structure File where
  content : Str
  writable : Bool
  deriving DecidableEq, Repr

/-- The state of a `std::ofstream` with the default exception mask: whether a
file is attached, and whether `failbit` or `badbit` is set. No member of such
a stream throws; a failure is only recorded in the state. -/
structure OfStream where
  isOpen : Bool
  failed : Bool
  deriving DecidableEq, Repr

/-- The member `good()` of the stream: a file is attached and no error bit is set. -/
def OfStream.good (f : OfStream) : Bool := f.isOpen && !f.failed

/-- The call `open(fileName, std::ofstream::out | std::ofstream::trunc)`. When the
file can be opened its content is discarded; otherwise (or when the stream is
already open) `failbit` is set and the file is left as it is. -/
def OfStream.open (f : OfStream) (file : File) : OfStream × File :=
  if f.isOpen then
    ({ f with failed := true }, file)
  else if file.writable then
    ({ isOpen := true, failed := false }, { file with content := [] })
  else
    ({ f with failed := true }, file)

/-- The calls `write(str.c_str(), str.size())` followed by `flush()`: on a good
stream the `str.size()` characters of `str` reach the end of the file; on any
other stream nothing is written and an error bit is set. -/
def OfStream.write (f : OfStream) (file : File) (str : Str) : OfStream × File :=
  if f.good then
    (f, { file with content := file.content ++ str })
  else
    ({ f with failed := true }, file)

/-- Modelled from the spec: the class `tvp::SpinMutex` of `SpinMutex/SpinMutex.h`,
"a single boolean-like locked flag, atomically tested-and-set"; `true` while held. -/
abbrev SpinMutex := Bool

/-- The non-static data members of a `Logger` object. -/
structure Logger where
  mFileSpin : SpinMutex
  mFile : OfStream
  deriving DecidableEq, Repr

/-- What lies outside the process: the file `log.log` and the text written to
`std::cout` so far. -/
structure Io where
  file : File
  cout : Str
  deriving DecidableEq, Repr

/-- The constructor `Logger(std::string const& fileName)`: a free spin mutex, a
default-constructed stream, then `mFile.open(fileName, out | trunc)`. -/
def Logger.construct (_fileName : Str) (file : File) : Logger × File :=
  let r := OfStream.open { isOpen := false, failed := false } file
  ({ mFileSpin := false, mFile := r.1 }, r.2)

/-- The string `str` that `Logger::debug` builds; `now` is the value returned by
`tvp::Utils::getDateTime()` in that call. -/
def Logger.record (now msg : Str) (msgOnly : Bool) : Str :=
  if msgOnly then msg else now ++ "\t".toList ++ DEBUG_LEVEL ++ "\t".toList ++ msg

/-- The member function `Logger::debug(msg, msgOnly, console)`. It returns `void` and
nothing in it throws on a stream failure, so the only outcomes are a normal return
and waiting on a held `mFileSpin`. -/
def Logger.debug (self : Logger) (io : Io) (now msg : Str) (msgOnly console : Bool) :
    Outcome Unit × Logger × Io :=
  let str := Logger.record now msg msgOnly
  if self.mFileSpin then
    (Outcome.blocked, self, io)
  else
    let w := self.mFile.write io.file str        -- mFile.write(..); mFile.flush();
    let cout := if console then io.cout ++ str else io.cout
    (Outcome.returned (), { mFileSpin := false, mFile := w.1 }, { file := w.2, cout := cout })

/-- The static members of `Logger`, the free store, the outside world and the
two observation counters. -/
structure LogWorld where
  mInst : Addr
  mInitSpin : SpinMutex
  heap : List Logger
  io : Io
  ctorRuns : Nat
  lockAcqs : Nat
  deriving DecidableEq, Repr

/-- Program start, with the file `log.log` as found on disk. -/
def LogWorld.fresh (file : File) : LogWorld :=
  { mInst := 0, mInitSpin := false, heap := [], io := { file := file, cout := [] },
    ctorRuns := 0, lockAcqs := 0 }

/-- The effect of `new tvp::Logger("log.log")` when the allocation succeeds. -/
def LogWorld.newLogger (w : LogWorld) : Addr × LogWorld :=
  let r := Logger.construct "log.log".toList w.io.file
  (w.heap.length + 1,
    { w with heap := w.heap ++ [r.1], io := { w.io with file := r.2 },
             ctorRuns := w.ctorRuns + 1 })

/-- The static member function `Logger::getInstance`. -/
def Logger.getInstance (w : LogWorld) (allocOk : Bool) : Outcome Addr × LogWorld :=
  let log := w.mInst                             -- mInst.load(acquire)
  if log ≠ 0 then
    (Outcome.returned log, w)
  else if w.mInitSpin then
    (Outcome.blocked, w)
  else
    let w1 := { w with mInitSpin := true, lockAcqs := w.lockAcqs + 1 }
    let log := w1.mInst                          -- mInst.load(relaxed)
    if log ≠ 0 then
      (Outcome.returned log, { w1 with mInitSpin := false })
    else if allocOk then
      let r := w1.newLogger                      -- log = new tvp::Logger("log.log")
      let w3 := { r.2 with mInst := r.1 }        -- mInst.store(log, release)
      (Outcome.returned r.1, { w3 with mInitSpin := false })
    else
      (Outcome.threw, { w1 with mInitSpin := false })

/-- Calls of `Logger::getInstance` made one after another, as `callTrace`. -/
def Logger.callTrace : LogWorld → List Bool → List (Outcome Addr × LogWorld)
  | _, [] => []
  | w, o :: os => Logger.getInstance w o :: Logger.callTrace (Logger.getInstance w o).2 os

/-- One `debug` call as its caller sees it: the three arguments and the time
stamp the date/time collaborator hands out during the call. -/
structure Call where
  now : Str
  msg : Str
  msgOnly : Bool
  console : Bool
  deriving DecidableEq, Repr

/-- The record a call writes. -/
def Call.record (c : Call) : Str := Logger.record c.now c.msg c.msgOnly

/-- The call `p->debug(msg, msgOnly, console)` through a pointer obtained from
`getInstance`. A pointer that designates no `Logger` gives the call no defined
behaviour; the run stops there. -/
def LogWorld.debug (w : LogWorld) (p : Addr) (c : Call) : Outcome Unit × LogWorld :=
  match (if p = 0 then none else w.heap[p - 1]?) with
  | none => (Outcome.terminated, w)
  | some self =>
    let r := self.debug w.io c.now c.msg c.msgOnly c.console
    (r.1, { w with heap := w.heap.set (p - 1) r.2.1, io := r.2.2 })

/-- A sequence of `debug` calls through the same pointer, one after another. -/
def LogWorld.debugAll (w : LogWorld) (p : Addr) : List Call → LogWorld
  | [] => w
  | c :: cs => LogWorld.debugAll (w.debug p c).2 p cs

/-- A sequence of `debug` calls on one `Logger` object, one after another. -/
def Logger.debugAll (self : Logger) (io : Io) : List Call → Logger × Io
  | [] => (self, io)
  | c :: cs =>
    let r := self.debug io c.now c.msg c.msgOnly c.console
    Logger.debugAll r.2.1 r.2.2 cs

/-- A serialization of several writers: one sequence that contains every call of
every writer once and keeps each writer's own calls in the order it issued them. -/
def Serialization (writers : List (List Call)) (s : List Call) : Prop :=
  s.Perm writers.flatten ∧ ∀ w ∈ writers, w.Sublist s

/-- Replay of a sink: its content cut at every line feed, the way reading it
line by line does; a last piece without a line feed counts when it is not empty. -/
def splitLinesAux : Str → Str → List Str
  | acc, [] => if acc = [] then [] else [acc]
  | acc, c :: cs =>
    if c = Char.ofNat 10 then acc :: splitLinesAux [] cs else splitLinesAux (acc ++ [c]) cs

/-- Replay of a sink, starting with an empty current line. -/
def splitLines (s : Str) : List Str := splitLinesAux [] s

/-! ## Double-checked locking run by several threads -/

/-- The places of the double-checked-locking body a thread can be at.

* `load1` – before `sin = mInstance.load(..)` and the first `if (!sin)`;
* `acquire` – before the construction of the `std::lock_guard`;
* `load2` – lock held, before the second load and `if (!sin)`;
* `construct` – lock held, before `sin = new T(..)`;
* `store` – lock held, before `mInstance.store(sin, ..)`;
* `release` – lock held, before the destruction of the `std::lock_guard`;
* `done` – `return sin` has been executed. -/
inductive PC where
  | load1 | acquire | load2 | construct | store | release | done
  deriving DecidableEq, Repr

/-- A thread inside `getInstance`: where it is, and its local variable `sin`
(named `log` in `Logger::getInstance`), which is the value it returns. -/
structure Thread where
  pc : PC
  sin : Addr
  deriving DecidableEq, Repr

/-- The state shared by the threads: the atomic pointer, the lock with the
index of the thread holding it, the free store of objects of type `α`, what the
constructor acts upon outside the object (`ε`; the file for the Logger), the
number of constructor runs, and the threads themselves. -/
structure Conc (α ε : Type) where
  mInstance : Addr
  owner : Option Nat
  heap : List α
  env : ε
  ctorRuns : Nat
  threads : List Thread

/-- One atomic action of thread `i`, in a memory where every load sees the
latest store. A thread at `acquire` moves only when the lock is free (the lock
admits one holder at a time); otherwise, and when the thread has returned or
does not exist, the state stays as it is. Allocation succeeds. -/
def Conc.step {α ε : Type} (ctor : ε → α × ε) (c : Conc α ε) (i : Nat) : Conc α ε :=
  match c.threads[i]? with
  | none => c
  | some t =>
    match t.pc with
    | PC.load1 =>
      let t1 : Thread := { pc := if c.mInstance ≠ 0 then PC.done else PC.acquire, sin := c.mInstance }
      { c with threads := c.threads.set i t1 }
    | PC.acquire =>
      match c.owner with
      | some _ => c
      | none =>
        let t1 : Thread := { t with pc := PC.load2 }
        { c with owner := some i, threads := c.threads.set i t1 }
    | PC.load2 =>
      let t1 : Thread :=
        { pc := if c.mInstance ≠ 0 then PC.release else PC.construct, sin := c.mInstance }
      { c with threads := c.threads.set i t1 }
    | PC.construct =>
      let t1 : Thread := { pc := PC.store, sin := c.heap.length + 1 }
      { c with heap := c.heap ++ [(ctor c.env).1], env := (ctor c.env).2,
               ctorRuns := c.ctorRuns + 1, threads := c.threads.set i t1 }
    | PC.store =>
      let t1 : Thread := { t with pc := PC.release }
      { c with mInstance := t.sin, threads := c.threads.set i t1 }
    | PC.release =>
      let t1 : Thread := { t with pc := PC.done }
      { c with owner := none, threads := c.threads.set i t1 }
    | PC.done => c

/-- A schedule names, action after action, the thread that acts next. -/
def Conc.run {α ε : Type} (ctor : ε → α × ε) (c : Conc α ε) (sched : List Nat) : Conc α ε :=
  sched.foldl (Conc.step ctor) c

/-- A fresh strategy entered by `n` threads: null pointer, free lock, empty
free store, every thread at the start of `getInstance`. -/
def Conc.init {α ε : Type} (env : ε) (n : Nat) : Conc α ε :=
  { mInstance := 0, owner := none, heap := [], env := env, ctorRuns := 0,
    threads := List.replicate n { pc := PC.load1, sin := 0 } }

/-- Every thread has returned. -/
def Conc.allDone {α ε : Type} (c : Conc α ε) : Prop :=
  ∀ t ∈ c.threads, t.pc = PC.done

namespace relax
/-- The constructor call of `relax::Singleton::getInstance`, `new Singleton(3)`. -/
def Singleton.ctor (u : Unit) : Singleton × Unit := ({ mId := 3 }, u)
end relax

namespace acqrel
/-- The constructor call of `acqrel::Singleton::getInstance`, `new Singleton(4)`. -/
def Singleton.ctor (u : Unit) : Singleton × Unit := ({ mId := 4 }, u)
end acqrel

namespace seqcst
/-- The constructor call of `seqcst::Singleton::getInstance`, `new Singleton(5)`. -/
def Singleton.ctor (u : Unit) : Singleton × Unit := ({ mId := 5 }, u)
end seqcst

/-- The constructor call of `Logger::getInstance`, `new tvp::Logger("log.log")`. -/
def Logger.ctor (file : File) : Logger × File := Logger.construct "log.log".toList file

/-- What a run of `n` threads under the schedule `sched` has to satisfy, for the
strategy whose constructor call is `ctor`, started on `env`:

* at every moment the constructor has run at most once, and any two threads that
  have returned hold the same non-null pointer, which designates the one
  constructed object;
* when all threads have returned, the constructor has run exactly once;
* the run can always be continued until all threads have returned. -/
def ConstructsOnce {α ε : Type} (ctor : ε → α × ε) (env : ε) (n : Nat) (sched : List Nat) :
    Prop :=
  let c := Conc.run ctor (Conc.init env n) sched
  c.ctorRuns ≤ 1 ∧
  (∀ t ∈ c.threads, ∀ u ∈ c.threads, t.pc = PC.done → u.pc = PC.done →
      t.sin = u.sin ∧ t.sin ≠ 0 ∧ c.heap[t.sin - 1]? = some (ctor env).1) ∧
  (c.allDone → c.ctorRuns = 1) ∧
  ∃ more : List Nat, (Conc.run ctor c more).allDone ∧ (Conc.run ctor c more).threads.length = n

/-- How many actions a thread at a given place still has to take at most. -/
def PC.rank : PC → Nat
  | PC.load1 => 6
  | PC.acquire => 5
  | PC.load2 => 4
  | PC.construct => 3
  | PC.store => 2
  | PC.release => 1
  | PC.done => 0

/-- The actions all threads together still have to take at most. -/
def Conc.remaining {α ε : Type} (c : Conc α ε) : Nat :=
  (c.threads.map (fun t => t.pc.rank)).sum

/-- What the place of thread `i` tells about the shared state: inside the
critical section the thread holds the lock; it is about to construct only when
nothing has been constructed; between construction and store it holds the
address of the one object; once past the store the shared pointer is that
address. -/
def ThreadOk {α ε : Type} (c : Conc α ε) (i : Nat) (t : Thread) : Prop :=
  match t.pc with
  | PC.load1 => True
  | PC.acquire => True
  | PC.load2 => c.owner = some i
  | PC.construct => c.owner = some i ∧ c.mInstance = 0 ∧ c.ctorRuns = 0
  | PC.store => c.owner = some i ∧ c.mInstance = 0 ∧ c.ctorRuns = 1 ∧ t.sin = 1
  | PC.release => c.owner = some i ∧ c.mInstance = 1 ∧ t.sin = 1
  | PC.done => c.mInstance = 1 ∧ t.sin = 1

/-- The invariant of the machine started on `env0` with constructor call `ctor`. -/
structure Conc.Inv {α ε : Type} (ctor : ε → α × ε) (env0 : ε) (c : Conc α ε) : Prop where
  runs : c.ctorRuns ≤ 1
  before : c.ctorRuns = 0 → c.heap = [] ∧ c.env = env0 ∧ c.mInstance = 0
  after : c.ctorRuns = 1 → c.heap = [(ctor env0).1]
  ptr : c.mInstance = 0 ∨ c.mInstance = 1
  threads : ∀ (i : Nat) (t : Thread), c.threads[i]? = some t → ThreadOk c i t
  owner : ∀ i, c.owner = some i → ∃ t : Thread, c.threads[i]? = some t ∧
    (t.pc = PC.load2 ∨ t.pc = PC.construct ∨ t.pc = PC.store ∨ t.pc = PC.release)
  pending : c.ctorRuns = 1 → c.mInstance = 0 →
    ∃ (i : Nat) (t : Thread), c.threads[i]? = some t ∧ t.pc = PC.store

/-- The strategy `v` is initialised in `s` with the object `obj` at `r`, the
constructor has run once and the mutex is free. -/
def Inited (v : Variant) (r : Ref) (obj : Singleton) (s : Statics) : Prop :=
  constructionState v s = some r ∧ s.ctorRuns = 1 ∧ s.mMutex = false ∧ s.deref r = some obj

/-! # Theorems -/

/-! ## Sequential calls of the seven strategies -/

theorem inited_first (v : Variant) :
    ∃ r, (getInstance v Statics.fresh true).1 = Outcome.returned r ∧
      Inited v r { mId := expectedTag v } (getInstance v Statics.fresh true).2 := by
  cases v
  · exact ⟨Ref.staticLocal, by decide, by decide, by decide, by decide, by decide⟩
  · exact ⟨Ref.staticLocal, by decide, by decide, by decide, by decide, by decide⟩
  · exact ⟨Ref.heap 1, by decide, by decide, by decide, by decide, by decide⟩
  · exact ⟨Ref.heap 1, by decide, by decide, by decide, by decide, by decide⟩
  · exact ⟨Ref.heap 1, by decide, by decide, by decide, by decide, by decide⟩
  · exact ⟨Ref.heap 1, by decide, by decide, by decide, by decide, by decide⟩
  · exact ⟨Ref.heap 1, by decide, by decide, by decide, by decide, by decide⟩

theorem inited_dcl (id : Nat) (s : Statics) (o : Bool) (h : s.mInstance ≠ 0) :
    dclGetInstance id s o = (Outcome.returned (Ref.heap s.mInstance), s) := by
  simp [dclGetInstance, h]

theorem inited_step (v : Variant) (r : Ref) (obj : Singleton) (s : Statics) (o : Bool)
    (h : Inited v r obj s) :
    (getInstance v s o).1 = Outcome.returned r ∧ Inited v r obj (getInstance v s o).2 := by
  obtain ⟨hc, hk, hm, hd⟩ := h
  cases v
  · cases hl : s.localInstance with
    | none => simp [constructionState, hl] at hc
    | some x =>
      simp [constructionState, hl] at hc
      subst hc
      simp [getInstance, singlethread.Singleton.getInstance, staticGetInstance, hl, Inited,
        constructionState, hk, hm, ← hd, Statics.deref]
  · cases hl : s.localInstance with
    | none => simp [constructionState, hl] at hc
    | some x =>
      simp [constructionState, hl] at hc
      subst hc
      simp [getInstance, scottmayer.Singleton.getInstance, staticGetInstance, hl, Inited,
        constructionState, hk, hm, ← hd, Statics.deref]
  · by_cases h0 : s.mInstance = 0
    · simp [constructionState, h0] at hc
    · simp [constructionState, h0] at hc
      subst hc
      simp [getInstance, relax.Singleton.getInstance, inited_dcl _ _ _ h0, Inited,
        constructionState, h0, hk, hm, hd]
  · by_cases h0 : s.mInstance = 0
    · simp [constructionState, h0] at hc
    · simp [constructionState, h0] at hc
      subst hc
      simp [getInstance, acqrel.Singleton.getInstance, inited_dcl _ _ _ h0, Inited,
        constructionState, h0, hk, hm, hd]
  · by_cases h0 : s.mInstance = 0
    · simp [constructionState, h0] at hc
    · simp [constructionState, h0] at hc
      subst hc
      simp [getInstance, seqcst.Singleton.getInstance, inited_dcl _ _ _ h0, Inited,
        constructionState, h0, hk, hm, hd]
  · by_cases hf : s.mOnceFlag = true
    · simp [constructionState, hf] at hc
      subst hc
      simp [getInstance, onceflag.Singleton.getInstance, hf, Inited, constructionState,
        hk, hm, hd]
    · simp [constructionState, hf] at hc
  · by_cases h0 : s.mInstance = 0
    · simp [constructionState, h0] at hc
    · simp [constructionState, h0] at hc
      subst hc
      simp [Statics.deref, h0] at hd
      simp [getInstance, lock.Singleton.getInstance, hm, Statics.lockGuard, Statics.unlock,
        h0, Inited, constructionState, hk, hd, Statics.deref]

theorem inited_trace (v : Variant) (r : Ref) (obj : Singleton) (allocs : List Bool) :
    ∀ s, Inited v r obj s → ∀ p ∈ callTrace v s allocs,
      p.1 = Outcome.returned r ∧ Inited v r obj p.2 := by
  induction allocs with
  | nil => intro s _ p hp; simp [callTrace] at hp
  | cons o os ih =>
    intro s hs p hp
    have h1 := inited_step v r obj s o hs
    simp only [callTrace, List.mem_cons] at hp
    rcases hp with hp | hp
    · subst hp; exact h1
    · exact ih _ h1.2 p hp

theorem callTrace_length (v : Variant) (allocs : List Bool) :
    ∀ s, (callTrace v s allocs).length = allocs.length := by
  induction allocs with
  | nil => intro s; rfl
  | cons o os ih => intro s; simp [callTrace, ih]

theorem trace_from_fresh (v : Variant) (os : List Bool) :
    ∃ r, ∀ p ∈ callTrace v Statics.fresh (true :: os),
      p.1 = Outcome.returned r ∧ Inited v r { mId := expectedTag v } p.2 := by
  obtain ⟨r, h1, h2⟩ := inited_first v
  refine ⟨r, ?_⟩
  intro p hp
  simp only [callTrace, List.mem_cons] at hp
  rcases hp with hp | hp
  · subst hp; exact ⟨h1, h2⟩
  · exact inited_trace v r _ os _ h2 p hp

/-- C1. For every strategy and every `n ≥ 1`, `n` calls of `getInstance` made one
after another from the fresh state, the first of which obtains its memory: the
fresh state is Uninitialized with no constructor run; there are `n` outcomes;
and there is one instance `r` holding one object `obj` such that every call
returns `r` and leaves the constructor count at exactly one (so the constructor
ran during the first call and never again) and the construction state
Initialized with that same `r` and `obj`. -/
theorem getInstance_sequence_constructs_once (v : Variant) (n : Nat) (hn : 1 ≤ n)
    (allocs : List Bool) (hlen : allocs.length = n) (hfirst : allocs.head? = some true) :
    constructionState v Statics.fresh = none ∧ Statics.fresh.ctorRuns = 0 ∧
    (callTrace v Statics.fresh allocs).length = n ∧
    ∃ r obj, ∀ p ∈ callTrace v Statics.fresh allocs,
      p.1 = Outcome.returned r ∧ p.2.ctorRuns = 1 ∧
      constructionState v p.2 = some r ∧ p.2.deref r = some obj := by
  refine ⟨by cases v <;> rfl, rfl, by rw [callTrace_length, hlen], ?_⟩
  cases allocs with
  | nil => simp at hlen; omega
  | cons o os =>
    simp at hfirst
    subst hfirst
    obtain ⟨r, hr⟩ := trace_from_fresh v os
    exact ⟨r, _, fun p hp => ⟨(hr p hp).1, (hr p hp).2.2.1, (hr p hp).2.1, (hr p hp).2.2.2.2⟩⟩

theorem getInstance_sequence_constructs_once_witness :
    1 ≤ 3 ∧ [true, false, true].length = 3 ∧ [true, false, true].head? = some true ∧
    (constructionState Variant.acqrel Statics.fresh = none ∧ Statics.fresh.ctorRuns = 0 ∧
    (callTrace Variant.acqrel Statics.fresh [true, false, true]).length = 3 ∧
    ∃ r obj, ∀ p ∈ callTrace Variant.acqrel Statics.fresh [true, false, true],
      p.1 = Outcome.returned r ∧ p.2.ctorRuns = 1 ∧
      constructionState Variant.acqrel p.2 = some r ∧ p.2.deref r = some obj) :=
  ⟨by decide, by decide, by decide,
    getInstance_sequence_constructs_once Variant.acqrel 3 (by decide) [true, false, true]
      (by decide) (by decide)⟩

/-- C10. For every strategy and every call of a sequence of `getInstance` calls
from the fresh state (the first obtaining its memory), the call returns an object
whose `mId` (also as read by `getId`) is the tag of the strategy:
singlethread 1, scottmayer 2, relax 3, acqrel 4, seqcst 5, onceflag 6, lock 7;
and distinct strategies have distinct tags. -/
theorem getInstance_tag (v : Variant) (allocs : List Bool)
    (hfirst : allocs.head? = some true) :
    (∀ p ∈ callTrace v Statics.fresh allocs, ∃ r obj,
      p.1 = Outcome.returned r ∧ p.2.deref r = some obj ∧ obj.mId = expectedTag v ∧
      obj.getId = expectedTag v) ∧
    List.map expectedTag [Variant.singlethread, Variant.scottmayer, Variant.relax,
      Variant.acqrel, Variant.seqcst, Variant.onceflag, Variant.lock] = [1, 2, 3, 4, 5, 6, 7] ∧
    Function.Injective expectedTag := by
  refine ⟨?_, rfl, ?_⟩
  · cases allocs with
    | nil => simp at hfirst
    | cons o os =>
      simp at hfirst
      subst hfirst
      obtain ⟨r, hr⟩ := trace_from_fresh v os
      intro p hp
      exact ⟨r, _, (hr p hp).1, (hr p hp).2.2.2.2, rfl, rfl⟩
  · intro a b hab
    cases a <;> cases b <;> first | rfl | (exact absurd hab (by decide))

theorem getInstance_tag_witness :
    [true, true].head? = some true ∧
    ((∀ p ∈ callTrace Variant.onceflag Statics.fresh [true, true], ∃ r obj,
      p.1 = Outcome.returned r ∧ p.2.deref r = some obj ∧
      obj.mId = expectedTag Variant.onceflag ∧ obj.getId = expectedTag Variant.onceflag) ∧
    List.map expectedTag [Variant.singlethread, Variant.scottmayer, Variant.relax,
      Variant.acqrel, Variant.seqcst, Variant.onceflag, Variant.lock] = [1, 2, 3, 4, 5, 6, 7] ∧
    Function.Injective expectedTag) :=
  ⟨by decide, getInstance_tag Variant.onceflag [true, true] (by decide)⟩

/-! ## The fast path -/

theorem getInstance_dcl_fast (v : Variant) (hv : v ∈ dclVariants) (s : Statics) (o : Bool)
    (hs : s.mInstance ≠ 0) :
    getInstance v s o = (Outcome.returned (Ref.heap s.mInstance), s) := by
  simp only [dclVariants, List.mem_cons, List.mem_singleton, List.mem_nil_iff, or_false] at hv
  rcases hv with h | h | h <;> subst h
  · exact inited_dcl 3 s o hs
  · exact inited_dcl 4 s o hs
  · exact inited_dcl 5 s o hs

theorem callTrace_dcl_fast (v : Variant) (hv : v ∈ dclVariants) (s : Statics)
    (hs : s.mInstance ≠ 0) (allocs : List Bool) :
    ∀ p ∈ callTrace v s allocs, p = (Outcome.returned (Ref.heap s.mInstance), s) := by
  induction allocs with
  | nil => intro p hp; simp [callTrace] at hp
  | cons o os ih =>
    intro p hp
    have h1 := getInstance_dcl_fast v hv s o hs
    simp only [callTrace, List.mem_cons, h1] at hp
    rcases hp with hp | hp
    · exact hp
    · exact ih p hp

theorem Logger.getInstance_fast (w : LogWorld) (o : Bool) (hw : w.mInst ≠ 0) :
    Logger.getInstance w o = (Outcome.returned w.mInst, w) := by
  simp [Logger.getInstance, hw]

theorem Logger.callTrace_fast (w : LogWorld) (hw : w.mInst ≠ 0) (allocs : List Bool) :
    ∀ p ∈ Logger.callTrace w allocs, p = (Outcome.returned w.mInst, w) := by
  induction allocs with
  | nil => intro p hp; simp [Logger.callTrace] at hp
  | cons o os ih =>
    intro p hp
    have h1 := Logger.getInstance_fast w o hw
    simp only [Logger.callTrace, List.mem_cons, h1] at hp
    rcases hp with hp | hp
    · exact hp
    · exact ih p hp

theorem Logger.loggerTrace_length (allocs : List Bool) :
    ∀ w, (Logger.callTrace w allocs).length = allocs.length := by
  induction allocs with
  | nil => intro w; rfl
  | cons o os ih => intro w; simp [Logger.callTrace, ih]

/-- C3. For relax, acqrel and seqcst, and for `Logger::getInstance`: in any state
in which the instance has been constructed (the static pointer is not null),
any number of further `getInstance` calls made one after another all return
that pointer, and after each of them the constructor count and the
lock-acquisition count are what they were before the first of them (indeed the
whole state is). -/
theorem getInstance_fast_path (v : Variant) (hv : v ∈ dclVariants) (s : Statics)
    (hs : s.mInstance ≠ 0) (w : LogWorld) (hw : w.mInst ≠ 0) (allocs : List Bool) :
    ((callTrace v s allocs).length = allocs.length ∧
      ∀ p ∈ callTrace v s allocs, p.1 = Outcome.returned (Ref.heap s.mInstance) ∧
        p.2.ctorRuns = s.ctorRuns ∧ p.2.lockAcqs = s.lockAcqs ∧ p.2 = s) ∧
    ((Logger.callTrace w allocs).length = allocs.length ∧
      ∀ p ∈ Logger.callTrace w allocs, p.1 = Outcome.returned w.mInst ∧
        p.2.ctorRuns = w.ctorRuns ∧ p.2.lockAcqs = w.lockAcqs ∧ p.2 = w) := by
  refine ⟨⟨callTrace_length v allocs s, ?_⟩, ⟨Logger.loggerTrace_length allocs w, ?_⟩⟩
  · intro p hp
    rw [callTrace_dcl_fast v hv s hs allocs p hp]
    exact ⟨rfl, rfl, rfl, rfl⟩
  · intro p hp
    rw [Logger.callTrace_fast w hw allocs p hp]
    exact ⟨rfl, rfl, rfl, rfl⟩

theorem getInstance_fast_path_witness :
    Variant.relax ∈ dclVariants ∧
    (getInstance Variant.relax Statics.fresh true).2.mInstance ≠ 0 ∧
    (Logger.getInstance (LogWorld.fresh { content := [], writable := true }) true).2.mInst ≠ 0 ∧
    (((callTrace Variant.relax (getInstance Variant.relax Statics.fresh true).2
          [true, false]).length = [true, false].length ∧
      ∀ p ∈ callTrace Variant.relax (getInstance Variant.relax Statics.fresh true).2
          [true, false],
        p.1 = Outcome.returned
          (Ref.heap (getInstance Variant.relax Statics.fresh true).2.mInstance) ∧
        p.2.ctorRuns = (getInstance Variant.relax Statics.fresh true).2.ctorRuns ∧
        p.2.lockAcqs = (getInstance Variant.relax Statics.fresh true).2.lockAcqs ∧
        p.2 = (getInstance Variant.relax Statics.fresh true).2) ∧
    ((Logger.callTrace
          (Logger.getInstance (LogWorld.fresh { content := [], writable := true }) true).2
          [true, false]).length = [true, false].length ∧
      ∀ p ∈ Logger.callTrace
          (Logger.getInstance (LogWorld.fresh { content := [], writable := true }) true).2
          [true, false],
        p.1 = Outcome.returned
          (Logger.getInstance (LogWorld.fresh { content := [], writable := true }) true).2.mInst ∧
        p.2.ctorRuns =
          (Logger.getInstance (LogWorld.fresh { content := [], writable := true }) true).2.ctorRuns ∧
        p.2.lockAcqs =
          (Logger.getInstance (LogWorld.fresh { content := [], writable := true }) true).2.lockAcqs ∧
        p.2 = (Logger.getInstance (LogWorld.fresh { content := [], writable := true }) true).2)) :=
  ⟨by decide, by decide, by decide,
    getInstance_fast_path Variant.relax (by decide) _ (by decide) _ (by decide) [true, false]⟩

/-! ## Allocation failure -/

theorem dcl_alloc_failure (id : Nat) (s : Statics) (h0 : s.mInstance = 0)
    (hm : s.mMutex = false) :
    dclGetInstance id s false = (Outcome.threw, { s with lockAcqs := s.lockAcqs + 1 }) := by
  cases s
  simp_all [dclGetInstance, Statics.lockGuard, Statics.unlock]

theorem dcl_alloc_success (id : Nat) (s : Statics) (h0 : s.mInstance = 0)
    (hm : s.mMutex = false) :
    dclGetInstance id s true =
      (Outcome.returned (Ref.heap (s.heap.length + 1)),
        { s with mInstance := s.heap.length + 1, heap := s.heap ++ [{ mId := id }],
                 ctorRuns := s.ctorRuns + 1, lockAcqs := s.lockAcqs + 1 }) := by
  cases s
  simp_all [dclGetInstance, Statics.lockGuard, Statics.unlock, Statics.newSingleton]

theorem lock_alloc_failure (s : Statics) (h0 : s.mInstance = 0) (hm : s.mMutex = false) :
    lock.Singleton.getInstance s false =
      (Outcome.threw, { s with lockAcqs := s.lockAcqs + 1 }) := by
  cases s
  simp_all [lock.Singleton.getInstance, Statics.lockGuard, Statics.unlock]

theorem lock_alloc_success (s : Statics) (h0 : s.mInstance = 0) (hm : s.mMutex = false) :
    lock.Singleton.getInstance s true =
      (Outcome.returned (Ref.heap (s.heap.length + 1)),
        { s with mInstance := s.heap.length + 1, heap := s.heap ++ [{ mId := 7 }],
                 ctorRuns := s.ctorRuns + 1, lockAcqs := s.lockAcqs + 1 }) := by
  cases s
  simp_all [lock.Singleton.getInstance, Statics.lockGuard, Statics.unlock,
    Statics.newSingleton]

theorem throwing_alloc (v : Variant) (hv : v ∈ throwingVariants) (s : Statics)
    (h0 : s.mInstance = 0) (hm : s.mMutex = false) :
    getInstance v s false = (Outcome.threw, { s with lockAcqs := s.lockAcqs + 1 }) ∧
    ∃ id, getInstance v { s with lockAcqs := s.lockAcqs + 1 } true =
      (Outcome.returned (Ref.heap (s.heap.length + 1)),
        { s with mInstance := s.heap.length + 1, heap := s.heap ++ [{ mId := id }],
                 ctorRuns := s.ctorRuns + 1, lockAcqs := s.lockAcqs + 1 + 1 }) := by
  simp only [throwingVariants, List.mem_cons, List.mem_singleton, List.mem_nil_iff,
    or_false] at hv
  rcases hv with h | h | h | h <;> subst h
  · exact ⟨dcl_alloc_failure 3 s h0 hm, 3, dcl_alloc_success 3 _ h0 hm⟩
  · exact ⟨dcl_alloc_failure 4 s h0 hm, 4, dcl_alloc_success 4 _ h0 hm⟩
  · exact ⟨dcl_alloc_failure 5 s h0 hm, 5, dcl_alloc_success 5 _ h0 hm⟩
  · exact ⟨lock_alloc_failure s h0 hm, 7, lock_alloc_success _ h0 hm⟩

/-- C9, as the claim states it, fails for onceflag: from the fresh state a
`getInstance` call whose allocation fails ends in `std::terminate`, not in an
exception that reaches the call site. -/
theorem onceflag_alloc_failure_terminates :
    (getInstance Variant.onceflag Statics.fresh false).1 = Outcome.terminated ∧
    (getInstance Variant.onceflag Statics.fresh false).1 ≠ Outcome.threw := by
  decide

/-- C9, amended. In an Uninitialized state with the mutex free, a `getInstance` call
of relax, acqrel, seqcst or lock whose allocation fails ends with the exception at
the call site, runs no constructor, leaves the pointer null, the free store as
it was, the construction state Uninitialized and the mutex released, and the
next call, if it obtains memory, constructs the instance and returns it.
For onceflag, in a state with the flag unset, such a call ends in
`std::terminate`. For singlethread and scottmayer `getInstance` requests no
allocation: its result does not depend on whether one would succeed. -/
theorem getInstance_alloc_failure (s : Statics) (h0 : s.mInstance = 0)
    (hm : s.mMutex = false) (hf : s.mOnceFlag = false) :
    (∀ v ∈ throwingVariants,
      (getInstance v s false).1 = Outcome.threw ∧
      (getInstance v s false).2.ctorRuns = s.ctorRuns ∧
      (getInstance v s false).2.mInstance = 0 ∧
      (getInstance v s false).2.heap = s.heap ∧
      (getInstance v s false).2.mMutex = false ∧
      constructionState v (getInstance v s false).2 = none ∧
      (getInstance v (getInstance v s false).2 true).1 =
        Outcome.returned (Ref.heap (s.heap.length + 1)) ∧
      (getInstance v (getInstance v s false).2 true).2.ctorRuns = s.ctorRuns + 1 ∧
      constructionState v (getInstance v (getInstance v s false).2 true).2 =
        some (Ref.heap (s.heap.length + 1))) ∧
    (getInstance Variant.onceflag s false).1 = Outcome.terminated ∧
    (∀ v ∈ staticVariants, ∀ o, getInstance v s o = getInstance v s true) := by
  refine ⟨?_, ?_, ?_⟩
  · intro v hv
    obtain ⟨h1, id, h2⟩ := throwing_alloc v hv s h0 hm
    rw [h1]
    dsimp only
    rw [h2]
    refine ⟨rfl, rfl, h0, rfl, hm, ?_, rfl, rfl, ?_⟩
    · simp only [throwingVariants, List.mem_cons, List.mem_singleton, List.mem_nil_iff,
        or_false] at hv
      rcases hv with h | h | h | h <;> subst h <;> simp [constructionState, h0]
    · simp only [throwingVariants, List.mem_cons, List.mem_singleton, List.mem_nil_iff,
        or_false] at hv
      rcases hv with h | h | h | h <;> subst h <;> simp [constructionState]
  · simp [getInstance, onceflag.Singleton.getInstance, onceflag.Singleton.initSingleton, hf]
  · intro v hv o
    simp only [staticVariants, List.mem_cons, List.mem_singleton, List.mem_nil_iff,
      or_false] at hv
    rcases hv with h | h <;> subst h <;> rfl

theorem getInstance_alloc_failure_witness :
    Statics.fresh.mInstance = 0 ∧ Statics.fresh.mMutex = false ∧
    Statics.fresh.mOnceFlag = false ∧
    (getInstance Variant.lock Statics.fresh false).1 = Outcome.threw ∧
    (getInstance Variant.lock (getInstance Variant.lock Statics.fresh false).2 true).1 =
      Outcome.returned (Ref.heap (Statics.fresh.heap.length + 1)) ∧
    (getInstance Variant.onceflag Statics.fresh false).1 = Outcome.terminated :=
  ⟨rfl, rfl, rfl,
    ((getInstance_alloc_failure Statics.fresh rfl rfl rfl).1 Variant.lock (by decide)).1,
    ((getInstance_alloc_failure Statics.fresh rfl rfl rfl).1 Variant.lock
      (by decide)).2.2.2.2.2.2.1,
    (getInstance_alloc_failure Statics.fresh rfl rfl rfl).2.1⟩

/-! ## The logger -/

theorem Logger.debug_good (self : Logger) (io : Io) (now msg : Str) (msgOnly console : Bool)
    (hfree : self.mFileSpin = false) (hgood : self.mFile.good = true) :
    self.debug io now msg msgOnly console =
      (Outcome.returned (), self,
        { file := { io.file with content := io.file.content ++ Logger.record now msg msgOnly },
          cout := if console then io.cout ++ Logger.record now msg msgOnly else io.cout }) := by
  cases self
  simp_all [Logger.debug, OfStream.write]

theorem Logger.debug_not_good (self : Logger) (io : Io) (now msg : Str)
    (msgOnly console : Bool) (hfree : self.mFileSpin = false)
    (hbad : self.mFile.good = false) :
    self.debug io now msg msgOnly console =
      (Outcome.returned (), { self with mFile := { self.mFile with failed := true } },
        { file := io.file,
          cout := if console then io.cout ++ Logger.record now msg msgOnly else io.cout }) := by
  cases self
  simp_all [Logger.debug, OfStream.write]

theorem Logger.debugAll_good (calls : List Call) :
    ∀ (self : Logger) (io : Io), self.mFileSpin = false → self.mFile.good = true →
      Logger.debugAll self io calls =
        (self,
          { file := { io.file with
              content := io.file.content ++ (calls.map Call.record).flatten },
            cout := io.cout ++
              ((calls.filter (fun c => c.console)).map Call.record).flatten }) := by
  induction calls with
  | nil => intro self io _ _; simp [Logger.debugAll]
  | cons c cs ih =>
    intro self io hfree hgood
    rw [Logger.debugAll, Logger.debug_good self io _ _ _ _ hfree hgood]
    dsimp only
    rw [ih self _ hfree hgood]
    cases hc : c.console <;> simp [Call.record, List.filter, hc, List.append_assoc]

/-- C4. On a Logger whose `mFileSpin` is free and whose stream is good, for every
message `msg`, time stamp `now` and `console` flag, `debug` returns and the file
afterwards holds its former content followed by exactly
`now ++ "\t" ++ "debug" ++ "\t" ++ msg` when `msgOnly` is false, and followed by
exactly `msg` when `msgOnly` is true. -/
theorem Logger.debug_record (self : Logger) (io : Io) (hfree : self.mFileSpin = false)
    (hgood : self.mFile.good = true) (now msg : Str) (console : Bool) :
    ((self.debug io now msg false console).1 = Outcome.returned () ∧
      (self.debug io now msg false console).2.2.file.content =
        io.file.content ++ (now ++ "\t".toList ++ "debug".toList ++ "\t".toList ++ msg)) ∧
    ((self.debug io now msg true console).1 = Outcome.returned () ∧
      (self.debug io now msg true console).2.2.file.content = io.file.content ++ msg) := by
  rw [Logger.debug_good self io now msg false console hfree hgood,
    Logger.debug_good self io now msg true console hfree hgood]
  exact ⟨⟨rfl, rfl⟩, ⟨rfl, rfl⟩⟩

theorem Logger.debug_record_witness :
    (Logger.construct "log.log".toList { content := "old".toList, writable := true }).1.mFileSpin
      = false ∧
    (Logger.construct "log.log".toList { content := "old".toList, writable := true }).1.mFile.good
      = true ∧
    (((Logger.construct "log.log".toList { content := "old".toList, writable := true }).1.debug
        { file := { content := "x".toList, writable := true }, cout := [] }
        "12:00".toList "hello".toList false true).1 = Outcome.returned () ∧
      ((Logger.construct "log.log".toList { content := "old".toList, writable := true }).1.debug
        { file := { content := "x".toList, writable := true }, cout := [] }
        "12:00".toList "hello".toList false true).2.2.file.content =
        "x".toList ++
          ("12:00".toList ++ "\t".toList ++ "debug".toList ++ "\t".toList ++ "hello".toList)) ∧
    (((Logger.construct "log.log".toList { content := "old".toList, writable := true }).1.debug
        { file := { content := "x".toList, writable := true }, cout := [] }
        "12:00".toList "hello".toList true true).1 = Outcome.returned () ∧
      ((Logger.construct "log.log".toList { content := "old".toList, writable := true }).1.debug
        { file := { content := "x".toList, writable := true }, cout := [] }
        "12:00".toList "hello".toList true true).2.2.file.content =
        "x".toList ++ "hello".toList) :=
  ⟨rfl, rfl,
    Logger.debug_record
      (Logger.construct "log.log".toList { content := "old".toList, writable := true }).1
      { file := { content := "x".toList, writable := true }, cout := [] }
      rfl rfl "12:00".toList "hello".toList true⟩

/-- C6. On a Logger whose `mFileSpin` is free and whose stream is good, after any
sequence of `debug` calls the file holds its former content followed by the
records of all calls in call order, and the console holds its former content
followed, in the same order, by the records of exactly the calls made with
`console = true`; a single call with `console = false` leaves the console as
it was. -/
theorem Logger.debug_sequence (self : Logger) (io : Io) (hfree : self.mFileSpin = false)
    (hgood : self.mFile.good = true) (calls : List Call) :
    (Logger.debugAll self io calls).2.file.content =
      io.file.content ++ (calls.map Call.record).flatten ∧
    (Logger.debugAll self io calls).2.cout =
      io.cout ++ ((calls.filter (fun c => c.console)).map Call.record).flatten ∧
    ∀ now msg msgOnly, (self.debug io now msg msgOnly false).2.2.cout = io.cout := by
  rw [Logger.debugAll_good calls self io hfree hgood]
  refine ⟨rfl, rfl, ?_⟩
  intro now msg msgOnly
  rw [Logger.debug_good self io now msg msgOnly false hfree hgood]
  rfl

theorem Logger.debug_sequence_witness :
    (Logger.construct "log.log".toList { content := [], writable := true }).1.mFileSpin = false ∧
    (Logger.construct "log.log".toList { content := [], writable := true }).1.mFile.good = true ∧
    (Logger.debugAll (Logger.construct "log.log".toList { content := [], writable := true }).1
      { file := { content := [], writable := true }, cout := [] }
      [{ now := "t".toList, msg := "a".toList, msgOnly := true, console := false },
       { now := "t".toList, msg := "b".toList, msgOnly := true, console := true }]).2.file.content
      = [] ++ (List.map Call.record
          [{ now := "t".toList, msg := "a".toList, msgOnly := true, console := false },
           { now := "t".toList, msg := "b".toList, msgOnly := true, console := true }]).flatten :=
  ⟨rfl, rfl,
    (Logger.debug_sequence
      (Logger.construct "log.log".toList { content := [], writable := true }).1
      { file := { content := [], writable := true }, cout := [] } rfl rfl
      [{ now := "t".toList, msg := "a".toList, msgOnly := true, console := false },
       { now := "t".toList, msg := "b".toList, msgOnly := true, console := true }]).1⟩

theorem Logger.getInstance_fresh (file : File) :
    Logger.getInstance (LogWorld.fresh file) true =
      (Outcome.returned 1,
        { mInst := 1, mInitSpin := false,
          heap := [(Logger.construct "log.log".toList file).1],
          io := { file := (Logger.construct "log.log".toList file).2, cout := [] },
          ctorRuns := 1, lockAcqs := 1 }) := by
  simp [Logger.getInstance, LogWorld.fresh, LogWorld.newLogger]

theorem LogWorld.debug_single (w : LogWorld) (self : Logger) (c : Call)
    (hheap : w.heap = [self]) :
    w.debug 1 c =
      ((self.debug w.io c.now c.msg c.msgOnly c.console).1,
        { w with heap := [(self.debug w.io c.now c.msg c.msgOnly c.console).2.1],
                 io := (self.debug w.io c.now c.msg c.msgOnly c.console).2.2 }) := by
  simp [LogWorld.debug, hheap]

theorem LogWorld.debugAll_single (calls : List Call) :
    ∀ (w : LogWorld) (self : Logger), w.heap = [self] →
      w.debugAll 1 calls =
        { w with heap := [(Logger.debugAll self w.io calls).1],
                 io := (Logger.debugAll self w.io calls).2 } := by
  induction calls with
  | nil => intro w self h; cases w; simp_all [LogWorld.debugAll, Logger.debugAll]
  | cons c cs ih =>
    intro w self h
    rw [LogWorld.debugAll, LogWorld.debug_single w self c h]
    rw [ih _ _ rfl]
    simp [Logger.debugAll]



theorem splitLinesAux_line (body : Str) (hb : Char.ofNat 10 ∉ body) :
    ∀ (acc rest : Str), splitLinesAux acc (body ++ Char.ofNat 10 :: rest) =
      (acc ++ body) :: splitLinesAux [] rest := by
  induction body with
  | nil => intro acc rest; simp [splitLinesAux]
  | cons b bs ih =>
    intro acc rest
    simp only [List.mem_cons, not_or] at hb
    have hne : b ≠ Char.ofNat 10 := fun h => hb.1 h.symm
    simp [splitLinesAux, hne, ih hb.2]

theorem splitLines_records (s : List Call)
    (hs : ∀ c ∈ s, ∃ body, c.record = body ++ [Char.ofNat 10] ∧ Char.ofNat 10 ∉ body) :
    splitLines (s.map Call.record).flatten = s.map (fun c => c.record.dropLast) := by
  unfold splitLines
  induction s with
  | nil => simp [splitLinesAux]
  | cons c cs ih =>
    obtain ⟨body, hrec, hnl⟩ := hs c (List.mem_cons_self _ _)
    have ih' := ih (fun d hd => hs d (List.mem_cons_of_mem _ hd))
    simp only [List.map_cons, List.flatten_cons, hrec, List.append_assoc, List.singleton_append]
    rw [splitLinesAux_line body hnl, ih']
    simp

theorem serialization_length (writers : List (List Call)) (s : List Call) (k : Nat)
    (hk : ∀ w ∈ writers, w.length = k) (hs : Serialization writers s) :
    s.length = writers.length * k := by
  rw [hs.1.length_eq]
  clear hs
  induction writers with
  | nil => simp
  | cons w ws ih =>
    simp only [List.flatten_cons, List.length_append, List.length_cons]
    rw [ih (fun x hx => hk x (List.mem_cons_of_mem _ hx)), hk w (List.mem_cons_self _ _)]
    ring

theorem Logger.truncate_content (prior : Str) (calls : List Call) :
    (LogWorld.debugAll
      (Logger.getInstance (LogWorld.fresh { content := prior, writable := true }) true).2
      1 calls).io.file.content = (calls.map Call.record).flatten := by
  rw [Logger.getInstance_fresh, LogWorld.debugAll_single calls _ _ rfl,
    Logger.debugAll_good calls
      (Logger.construct "log.log".toList { content := prior, writable := true }).1 _ rfl rfl]
  simp [Logger.construct, OfStream.open]

/-- C7. Whatever the file `log.log` holds before (it can be opened for writing and
the allocation succeeds), the first `getInstance` call constructs the Logger
and leaves the file empty; the records of any `debug` calls made afterwards
through the returned pointer are then the whole content of the file; and a
later `getInstance` call returns the same pointer and changes nothing, the
file included. -/
theorem Logger.truncate_on_first_getInstance (prior : Str) (calls : List Call) (o : Bool) :
    (Logger.getInstance (LogWorld.fresh { content := prior, writable := true }) true).1 =
      Outcome.returned 1 ∧
    (Logger.getInstance (LogWorld.fresh { content := prior, writable := true })
      true).2.ctorRuns = 1 ∧
    (Logger.getInstance (LogWorld.fresh { content := prior, writable := true })
      true).2.io.file.content = [] ∧
    (LogWorld.debugAll
      (Logger.getInstance (LogWorld.fresh { content := prior, writable := true }) true).2
      1 calls).io.file.content = (calls.map Call.record).flatten ∧
    Logger.getInstance (LogWorld.debugAll
      (Logger.getInstance (LogWorld.fresh { content := prior, writable := true }) true).2
      1 calls) o =
      (Outcome.returned 1, LogWorld.debugAll
        (Logger.getInstance (LogWorld.fresh { content := prior, writable := true }) true).2
        1 calls) := by
  rw [Logger.getInstance_fresh]
  refine ⟨rfl, rfl, rfl, ?_, ?_⟩
  · have h := Logger.truncate_content prior calls
    rw [Logger.getInstance_fresh] at h
    exact h
  · rw [LogWorld.debugAll_single calls _ _ rfl]
    exact Logger.getInstance_fast _ o (by simp)

theorem Logger.debugAll_not_good (calls : List Call) :
    ∀ (self : Logger) (io : Io), self.mFileSpin = false → self.mFile.good = false →
      (Logger.debugAll self io calls).2.file = io.file ∧
      (Logger.debugAll self io calls).1.mFile.good = false ∧
      (Logger.debugAll self io calls).1.mFileSpin = false := by
  induction calls with
  | nil => intro self io h1 h2; exact ⟨rfl, h2, h1⟩
  | cons c cs ih =>
    intro self io hfree hbad
    rw [Logger.debugAll, Logger.debug_not_good self io _ _ _ _ hfree hbad]
    exact ih _ _ hfree (by simp [OfStream.good])

/-- C8, as the claim states it, fails: on the Logger constructed over a file that
cannot be opened, `debug` returns normally, no error reaches the caller, and the
file holds what it held before, without the record. -/
theorem Logger.debug_unopened_is_silent :
    (Logger.construct "log.log".toList
      { content := "old".toList, writable := false }).1.mFile.good = false ∧
    ((Logger.construct "log.log".toList { content := "old".toList, writable := false }).1.debug
      { file := { content := "old".toList, writable := false }, cout := [] }
      "12:00".toList "lost".toList false true).1 = Outcome.returned () ∧
    ((Logger.construct "log.log".toList { content := "old".toList, writable := false }).1.debug
      { file := { content := "old".toList, writable := false }, cout := [] }
      "12:00".toList "lost".toList false true).2.2.file.content = "old".toList := by
  decide

/-- C8, amended. On a Logger whose stream is not good (the file could not be opened
at construction, or an error bit is set) and whose `mFileSpin` is free, `debug`
returns normally without any error for the caller, writes nothing to the file,
writes the record to the console when `console` is true, and leaves the Logger
with the same attached file, a free `mFileSpin` and a stream that is still not
good; any later sequence of `debug` calls leaves the file untouched as well. -/
theorem Logger.debug_on_failed_stream (self : Logger) (io : Io)
    (hfree : self.mFileSpin = false) (hbad : self.mFile.good = false)
    (now msg : Str) (msgOnly console : Bool) (calls : List Call) :
    (self.debug io now msg msgOnly console).1 = Outcome.returned () ∧
    (self.debug io now msg msgOnly console).2.2.file = io.file ∧
    (self.debug io now msg msgOnly console).2.2.cout =
      (if console then io.cout ++ Logger.record now msg msgOnly else io.cout) ∧
    (self.debug io now msg msgOnly console).2.1.mFileSpin = false ∧
    (self.debug io now msg msgOnly console).2.1.mFile.isOpen = self.mFile.isOpen ∧
    (self.debug io now msg msgOnly console).2.1.mFile.good = false ∧
    (Logger.debugAll (self.debug io now msg msgOnly console).2.1
      (self.debug io now msg msgOnly console).2.2 calls).2.file = io.file := by
  rw [Logger.debug_not_good self io now msg msgOnly console hfree hbad]
  refine ⟨rfl, rfl, rfl, hfree, rfl, by simp [OfStream.good], ?_⟩
  exact (Logger.debugAll_not_good calls
    { self with mFile := { self.mFile with failed := true } } _ hfree
    (by simp [OfStream.good])).1

theorem Logger.debug_on_failed_stream_witness :
    (Logger.construct "log.log".toList
      { content := "old".toList, writable := false }).1.mFileSpin = false ∧
    (Logger.construct "log.log".toList
      { content := "old".toList, writable := false }).1.mFile.good = false ∧
    ((Logger.construct "log.log".toList { content := "old".toList, writable := false }).1.debug
      { file := { content := "old".toList, writable := false }, cout := [] }
      "12:00".toList "lost".toList false true).2.2.file =
      { content := "old".toList, writable := false } :=
  ⟨rfl, rfl,
    (Logger.debug_on_failed_stream
      (Logger.construct "log.log".toList { content := "old".toList, writable := false }).1
      { file := { content := "old".toList, writable := false }, cout := [] }
      rfl rfl "12:00".toList "lost".toList false true []).2.1⟩

/-- C5, as the claim states it, fails: two writers issue one `debug` call each, with
the distinct messages `m0` and `m1`, on a freshly constructed Logger; the sink then
replays as one line, not as `2 * 1` lines. -/
theorem Logger.two_writes_one_line :
    Serialization
      [[{ now := "t0".toList, msg := "m0".toList, msgOnly := false, console := false }],
       [{ now := "t1".toList, msg := "m1".toList, msgOnly := false, console := false }]]
      [{ now := "t0".toList, msg := "m0".toList, msgOnly := false, console := false },
       { now := "t1".toList, msg := "m1".toList, msgOnly := false, console := false }] ∧
    (splitLines (LogWorld.debugAll
      (Logger.getInstance (LogWorld.fresh { content := [], writable := true }) true).2 1
      [{ now := "t0".toList, msg := "m0".toList, msgOnly := false, console := false },
       { now := "t1".toList, msg := "m1".toList, msgOnly := false, console := false }]
      ).io.file.content).length = 1 ∧
    (1 : Nat) ≠ 2 * 1 := by
  refine ⟨⟨List.Perm.refl _, ?_⟩, by decide, by decide⟩
  intro w hw
  simp only [List.mem_cons, List.mem_singleton, List.mem_nil_iff, or_false] at hw
  rcases hw with h | h <;> subst h
  · exact List.Sublist.cons₂ _ (List.nil_sublist _)
  · exact List.Sublist.cons _ (List.Sublist.refl _)

/-- C5, amended. `M ≥ 1` writers issue `K ≥ 1` `debug` calls each on a freshly
constructed Logger (file openable, allocation successful), every record ending
in a line feed and containing no other line feed. For every serialization of
the calls, the sink holds exactly the records of the calls, whole and one after
another in serialization order; replaying it gives exactly `M * K` lines; and
the lines are, in that order, the records of the calls without their line feed,
one line per call. -/
theorem Logger.write_atomicity (M K : Nat) (_hM : 1 ≤ M) (_hK : 1 ≤ K)
    (writers : List (List Call)) (hlen : writers.length = M)
    (hcalls : ∀ w ∈ writers, w.length = K) (s : List Call) (hs : Serialization writers s)
    (hnl : ∀ c ∈ s, ∃ body, c.record = body ++ [Char.ofNat 10] ∧ Char.ofNat 10 ∉ body)
    (prior : Str) :
    (LogWorld.debugAll
      (Logger.getInstance (LogWorld.fresh { content := prior, writable := true }) true).2
      1 s).io.file.content = (s.map Call.record).flatten ∧
    (splitLines (LogWorld.debugAll
      (Logger.getInstance (LogWorld.fresh { content := prior, writable := true }) true).2
      1 s).io.file.content).length = M * K ∧
    splitLines (LogWorld.debugAll
      (Logger.getInstance (LogWorld.fresh { content := prior, writable := true }) true).2
      1 s).io.file.content = s.map (fun c => c.record.dropLast) := by
  have hc := (Logger.truncate_content prior s)
  rw [hc, splitLines_records s hnl]
  refine ⟨rfl, ?_, rfl⟩
  rw [List.length_map, serialization_length writers s K hcalls hs, hlen]

theorem Logger.write_atomicity_witness :
    1 ≤ 2 ∧ 1 ≤ 1 ∧
    Serialization
      [[{ now := [], msg := "m0\n".toList, msgOnly := true, console := false }],
       [{ now := [], msg := "m1\n".toList, msgOnly := true, console := true }]]
      [{ now := [], msg := "m1\n".toList, msgOnly := true, console := true },
       { now := [], msg := "m0\n".toList, msgOnly := true, console := false }] ∧
    (splitLines (LogWorld.debugAll
      (Logger.getInstance (LogWorld.fresh { content := "old".toList, writable := true }) true).2
      1
      [{ now := [], msg := "m1\n".toList, msgOnly := true, console := true },
       { now := [], msg := "m0\n".toList, msgOnly := true, console := false }]
      ).io.file.content).length = 2 * 1 :=
  have hs : Serialization
      [[{ now := [], msg := "m0\n".toList, msgOnly := true, console := false }],
       [{ now := [], msg := "m1\n".toList, msgOnly := true, console := true }]]
      [{ now := [], msg := "m1\n".toList, msgOnly := true, console := true },
       { now := [], msg := "m0\n".toList, msgOnly := true, console := false }] := by
    refine ⟨List.Perm.swap _ _ _, ?_⟩
    intro w hw
    simp only [List.mem_cons, List.mem_singleton, List.mem_nil_iff, or_false] at hw
    rcases hw with h | h <;> subst h
    · exact List.Sublist.cons _ (List.Sublist.refl _)
    · exact List.Sublist.cons₂ _ (List.nil_sublist _)
  ⟨by decide, by decide, hs,
    (Logger.write_atomicity 2 1 (by decide) (by decide)
      [[{ now := [], msg := "m0\n".toList, msgOnly := true, console := false }],
       [{ now := [], msg := "m1\n".toList, msgOnly := true, console := true }]] rfl
      (by
        intro w hw
        simp only [List.mem_cons, List.mem_singleton, List.mem_nil_iff, or_false] at hw
        rcases hw with h | h <;> subst h <;> rfl)
      [{ now := [], msg := "m1\n".toList, msgOnly := true, console := true },
       { now := [], msg := "m0\n".toList, msgOnly := true, console := false }] hs
      (by
        intro c hc
        simp only [List.mem_cons, List.mem_singleton, List.mem_nil_iff, or_false] at hc
        rcases hc with h | h <;> subst h
        · exact ⟨"m1".toList, by decide, by decide⟩
        · exact ⟨"m0".toList, by decide, by decide⟩)
      "old".toList).2.1⟩

/-! ## Several threads in `getInstance` -/

theorem Conc.inv_init {α ε : Type} (ctor : ε → α × ε) (env0 : ε) (n : Nat) :
    Conc.Inv ctor env0 (Conc.init env0 n) := by
  refine ⟨by simp [Conc.init], by simp [Conc.init], by simp [Conc.init], by simp [Conc.init],
    ?_, by simp [Conc.init], by simp [Conc.init]⟩
  intro i t ht
  simp only [Conc.init, List.getElem?_replicate] at ht
  split at ht
  · cases ht; simp [ThreadOk]
  · cases ht

theorem threadOk_set {α ε : Type} (c d : Conc α ε) (i : Nat) (t1 : Thread)
    (hthreads : d.threads = c.threads.set i t1) (hself : ThreadOk d i t1)
    (hother : ∀ (j : Nat) (tj : Thread), j ≠ i → c.threads[j]? = some tj → ThreadOk c j tj →
      ThreadOk d j tj)
    (h : ∀ (j : Nat) (tj : Thread), c.threads[j]? = some tj → ThreadOk c j tj) :
    ∀ (j : Nat) (tj : Thread), d.threads[j]? = some tj → ThreadOk d j tj := by
  intro j tj hj
  rw [hthreads, List.getElem?_set] at hj
  by_cases hij : i = j
  · subst hij
    simp only [if_true] at hj
    split at hj
    · cases hj; exact hself
    · cases hj
  · simp only [hij, if_false] at hj
    exact hother j tj (fun e => hij e.symm) hj (h j tj hj)

theorem Conc.inv_step {α ε : Type} (ctor : ε → α × ε) (env0 : ε) (c : Conc α ε) (i : Nat)
    (h : Conc.Inv ctor env0 c) : Conc.Inv ctor env0 (c.step ctor i) := by
  cases hti : c.threads[i]? with
  | none => simpa [Conc.step, hti] using h
  | some t =>
    have hok := h.threads i t hti
    have hlt : i < c.threads.length := by
      rcases List.getElem?_eq_some.mp hti with ⟨hl, _⟩; exact hl
    cases hpc : t.pc with
    | load1 =>
      simp only [Conc.step, hti, hpc]
      refine ⟨h.runs, h.before, h.after, h.ptr, ?_, ?_, ?_⟩
      · refine threadOk_set c _ i _ rfl ?_ ?_ h.threads
        · rcases h.ptr with h0 | h1
          · simp [ThreadOk, h0]
          · simp [ThreadOk, h1]
        · intro j tj hne hj hokj
          cases hpj : tj.pc <;> simp_all [ThreadOk]
      · intro k hk
        obtain ⟨tk, htk, hcrit⟩ := h.owner k hk
        have hki : i ≠ k := by
          rintro rfl
          rw [hti] at htk
          cases htk
          simp [hpc] at hcrit
        exact ⟨tk, by simpa [List.getElem?_set_ne hki] using htk, hcrit⟩
      · intro h1 h0
        obtain ⟨i0, t0, ht0, hs0⟩ := h.pending h1 h0
        have hne : i ≠ i0 := by
          rintro rfl
          rw [hti] at ht0
          cases ht0
          simp [hpc] at hs0
        exact ⟨i0, t0, by simpa [List.getElem?_set_ne hne] using ht0, hs0⟩
    | acquire =>
      cases hown : c.owner with
      | some k => simpa [Conc.step, hti, hpc, hown] using h
      | none =>
        simp only [Conc.step, hti, hpc, hown]
        refine ⟨h.runs, h.before, h.after, h.ptr, ?_, ?_, ?_⟩
        · refine threadOk_set c _ i _ rfl ?_ ?_ h.threads
          · simp [ThreadOk]
          · intro j tj hne hj hokj
            cases hpj : tj.pc <;> simp_all [ThreadOk]
        · intro k hk
          simp only [Option.some.injEq] at hk
          subst hk
          exact ⟨{ t with pc := PC.load2 }, by simp [List.getElem?_set_self hlt], Or.inl rfl⟩
        · intro h1 h0
          obtain ⟨i0, t0, ht0, hs0⟩ := h.pending h1 h0
          have hne : i ≠ i0 := by
            rintro rfl
            rw [hti] at ht0
            cases ht0
            simp [hpc] at hs0
          exact ⟨i0, t0, by simpa [List.getElem?_set_ne hne] using ht0, hs0⟩
    | load2 =>
      have hown : c.owner = some i := by simpa [ThreadOk, hpc] using hok
      have hnostore : ¬ (c.ctorRuns = 1 ∧ c.mInstance = 0) := by
        rintro ⟨h1, h0⟩
        obtain ⟨i0, t0, ht0, hs0⟩ := h.pending h1 h0
        have hok0 := h.threads i0 t0 ht0
        simp only [ThreadOk, hs0] at hok0
        have : i0 = i := by
          have := hok0.1
          rw [hown] at this
          exact (Option.some.inj this).symm
        subst this
        rw [hti] at ht0
        cases ht0
        simp [hpc] at hs0
      simp only [Conc.step, hti, hpc]
      refine ⟨h.runs, h.before, h.after, h.ptr, ?_, ?_, ?_⟩
      · refine threadOk_set c _ i _ rfl ?_ ?_ h.threads
        · rcases h.ptr with h0 | h1
          · have hr := h.runs
            have : c.ctorRuns = 0 := by
              by_contra hne
              exact hnostore ⟨by omega, h0⟩
            simp [ThreadOk, h0, hown, this]
          · simp [ThreadOk, h1, hown]
        · intro j tj hne hj hokj
          cases hpj : tj.pc <;> simp_all [ThreadOk]
      · intro k hk
        have hki : k = i := by
          have h2 : c.owner = some k := hk
          rw [hown] at h2
          exact (Option.some.inj h2).symm
        subst hki
        refine ⟨{ pc := if c.mInstance ≠ 0 then PC.release else PC.construct,
                  sin := c.mInstance }, by simp [List.getElem?_set_self hlt], ?_⟩
        by_cases h0 : c.mInstance = 0 <;> simp [h0]
      · intro h1 h0
        exact absurd ⟨h1, h0⟩ hnostore
    | construct =>
      have hok1 : c.owner = some i ∧ c.mInstance = 0 ∧ c.ctorRuns = 0 := by
        simpa [ThreadOk, hpc] using hok
      obtain ⟨hown, hm0, hr0⟩ := hok1
      obtain ⟨hheap, henv, _⟩ := h.before hr0
      simp only [Conc.step, hti, hpc]
      refine ⟨by simp [hr0], by simp, by simp [hheap, henv], Or.inl hm0, ?_, ?_, ?_⟩
      · refine threadOk_set c _ i _ rfl ?_ ?_ h.threads
        · simp [ThreadOk, hown, hm0, hr0, hheap]
        · intro j tj hne hj hokj
          cases hpj : tj.pc <;> simp_all [ThreadOk]
      · intro k hk
        have hki : k = i := by
          have h2 : c.owner = some k := hk
          rw [hown] at h2
          exact (Option.some.inj h2).symm
        subst hki
        exact ⟨{ pc := PC.store, sin := c.heap.length + 1 },
          by simp [List.getElem?_set_self hlt], Or.inr (Or.inr (Or.inl rfl))⟩
      · intro _ _
        exact ⟨i, { pc := PC.store, sin := c.heap.length + 1 },
          by simp [List.getElem?_set_self hlt], rfl⟩
    | store =>
      have hok1 : c.owner = some i ∧ c.mInstance = 0 ∧ c.ctorRuns = 1 ∧ t.sin = 1 := by
        simpa [ThreadOk, hpc] using hok
      obtain ⟨hown, hm0, hr1, hsin⟩ := hok1
      simp only [Conc.step, hti, hpc]
      refine ⟨h.runs, by simp [hr1], h.after, Or.inr hsin, ?_, ?_, ?_⟩
      · refine threadOk_set c _ i _ rfl ?_ ?_ h.threads
        · simp [ThreadOk, hown, hsin]
        · intro j tj hne hj hokj
          cases hpj : tj.pc <;> simp_all [ThreadOk]
      · intro k hk
        have hki : k = i := by
          have h2 : c.owner = some k := hk
          rw [hown] at h2
          exact (Option.some.inj h2).symm
        subst hki
        exact ⟨{ t with pc := PC.release },
          by simp [List.getElem?_set_self hlt], Or.inr (Or.inr (Or.inr rfl))⟩
      · intro _ h0
        simp [hsin] at h0
    | release =>
      have hok1 : c.owner = some i ∧ c.mInstance = 1 ∧ t.sin = 1 := by
        simpa [ThreadOk, hpc] using hok
      obtain ⟨hown, hm1, hsin⟩ := hok1
      simp only [Conc.step, hti, hpc]
      refine ⟨h.runs, h.before, h.after, h.ptr, ?_, ?_, ?_⟩
      · refine threadOk_set c _ i _ rfl ?_ ?_ h.threads
        · simp [ThreadOk, hm1, hsin]
        · intro j tj hne hj hokj
          cases hpj : tj.pc <;> simp_all [ThreadOk]
      · intro k hk
        simp at hk
      · intro _ h0
        simp [hm1] at h0
    | done => simpa [Conc.step, hti, hpc] using h

theorem Conc.inv_run {α ε : Type} (ctor : ε → α × ε) (env0 : ε) (sched : List Nat) :
    ∀ c : Conc α ε, Conc.Inv ctor env0 c → Conc.Inv ctor env0 (Conc.run ctor c sched) := by
  induction sched with
  | nil => intro c h; exact h
  | cons i is ih =>
    intro c h
    exact ih _ (Conc.inv_step ctor env0 c i h)

theorem Conc.run_append {α ε : Type} (ctor : ε → α × ε) (c : Conc α ε) (s1 s2 : List Nat) :
    Conc.run ctor c (s1 ++ s2) = Conc.run ctor (Conc.run ctor c s1) s2 := by
  simp [Conc.run, List.foldl_append]

theorem Conc.step_length {α ε : Type} (ctor : ε → α × ε) (c : Conc α ε) (i : Nat) :
    (c.step ctor i).threads.length = c.threads.length := by
  cases hti : c.threads[i]? with
  | none => simp [Conc.step, hti]
  | some t =>
    cases hpc : t.pc <;> simp only [Conc.step, hti, hpc, List.length_set]
    cases hown : c.owner <;> simp

theorem Conc.run_length {α ε : Type} (ctor : ε → α × ε) (sched : List Nat) :
    ∀ c : Conc α ε, (Conc.run ctor c sched).threads.length = c.threads.length := by
  induction sched with
  | nil => intro c; rfl
  | cons i is ih =>
    intro c
    exact (ih _).trans (Conc.step_length ctor c i)

theorem sum_rank_set (l : List Thread) :
    ∀ (i : Nat) (t t1 : Thread), l[i]? = some t → t1.pc.rank < t.pc.rank →
      ((l.set i t1).map (fun x => x.pc.rank)).sum < (l.map (fun x => x.pc.rank)).sum := by
  induction l with
  | nil => intro i t t1 h; simp at h
  | cons a as ih =>
    intro i t t1 h hlt
    cases i with
    | zero =>
      simp only [List.getElem?_cons_zero, Option.some.injEq] at h
      subst h
      simp only [List.set_cons_zero, List.map_cons, List.sum_cons]
      omega
    | succ k =>
      simp only [List.getElem?_cons_succ] at h
      have := ih k t t1 h hlt
      simp only [List.set_cons_succ, List.map_cons, List.sum_cons]
      omega

theorem Conc.progress {α ε : Type} (ctor : ε → α × ε) (env0 : ε) (c : Conc α ε)
    (h : Conc.Inv ctor env0 c) (hnd : ¬ c.allDone) :
    ∃ i, (c.step ctor i).remaining < c.remaining := by
  cases hown : c.owner with
  | some i =>
    obtain ⟨t, hti, hcrit⟩ := h.owner i hown
    refine ⟨i, ?_⟩
    rcases hcrit with hpc | hpc | hpc | hpc
    · simp only [Conc.step, hti, hpc, Conc.remaining]
      apply sum_rank_set _ i t _ hti
      by_cases h0 : c.mInstance = 0 <;> simp [h0, hpc, PC.rank]
    · simp only [Conc.step, hti, hpc, Conc.remaining]
      apply sum_rank_set _ i t _ hti
      simp [hpc, PC.rank]
    · simp only [Conc.step, hti, hpc, Conc.remaining]
      apply sum_rank_set _ i t _ hti
      simp [hpc, PC.rank]
    · simp only [Conc.step, hti, hpc, Conc.remaining]
      apply sum_rank_set _ i t _ hti
      simp [hpc, PC.rank]
  | none =>
    simp only [Conc.allDone, not_forall] at hnd
    obtain ⟨t, ht, hpc⟩ := hnd
    obtain ⟨i, hti⟩ := List.mem_iff_getElem?.mp ht
    have hok := h.threads i t hti
    refine ⟨i, ?_⟩
    cases hp : t.pc with
    | load1 =>
      simp only [Conc.step, hti, hp, Conc.remaining]
      apply sum_rank_set _ i t _ hti
      by_cases h0 : c.mInstance = 0 <;> simp [h0, hp, PC.rank]
    | acquire =>
      simp only [Conc.step, hti, hp, hown, Conc.remaining]
      apply sum_rank_set _ i t _ hti
      simp [hp, PC.rank]
    | load2 => simp [ThreadOk, hp, hown] at hok
    | construct => simp [ThreadOk, hp, hown] at hok
    | store => simp [ThreadOk, hp, hown] at hok
    | release => simp [ThreadOk, hp, hown] at hok
    | done => exact absurd hp hpc

theorem Conc.completes {α ε : Type} (ctor : ε → α × ε) (env0 : ε) :
    ∀ (k : Nat) (c : Conc α ε), Conc.Inv ctor env0 c → c.remaining ≤ k →
      ∃ more : List Nat, (Conc.run ctor c more).allDone := by
  intro k
  induction k with
  | zero =>
    intro c h hk
    by_cases hd : c.allDone
    · exact ⟨[], hd⟩
    · obtain ⟨i, hi⟩ := Conc.progress ctor env0 c h hd
      omega
  | succ k ih =>
    intro c h hk
    by_cases hd : c.allDone
    · exact ⟨[], hd⟩
    · obtain ⟨i, hi⟩ := Conc.progress ctor env0 c h hd
      obtain ⟨more, hmore⟩ := ih (c.step ctor i) (Conc.inv_step ctor env0 c i h) (by omega)
      exact ⟨i :: more, hmore⟩

theorem Conc.constructsOnce {α ε : Type} (ctor : ε → α × ε) (env : ε) (n : Nat) (hn : 2 ≤ n)
    (sched : List Nat) : ConstructsOnce ctor env n sched := by
  have hinv := Conc.inv_run ctor env sched _ (Conc.inv_init ctor env n)
  have hlen : (Conc.run ctor (Conc.init env n : Conc α ε) sched).threads.length = n := by
    rw [Conc.run_length]; simp [Conc.init]
  have hdone : ∀ t ∈ (Conc.run ctor (Conc.init env n : Conc α ε) sched).threads,
      t.pc = PC.done →
      (Conc.run ctor (Conc.init env n : Conc α ε) sched).mInstance = 1 ∧ t.sin = 1 := by
    intro t ht hpc
    obtain ⟨i, hti⟩ := List.mem_iff_getElem?.mp ht
    have hok := hinv.threads i t hti
    simpa [ThreadOk, hpc] using hok
  have hruns : (Conc.run ctor (Conc.init env n : Conc α ε) sched).mInstance = 1 →
      (Conc.run ctor (Conc.init env n : Conc α ε) sched).ctorRuns = 1 := by
    intro h1
    have hr := hinv.runs
    by_contra hne
    have h0 := (hinv.before (by omega)).2.2
    rw [h0] at h1
    exact absurd h1 (by decide)
  refine ⟨hinv.runs, ?_, ?_, ?_⟩
  · intro t ht u hu hpt hpu
    obtain ⟨hm, hts⟩ := hdone t ht hpt
    obtain ⟨_, hus⟩ := hdone u hu hpu
    refine ⟨by rw [hts, hus], by rw [hts]; decide, ?_⟩
    rw [hts, hinv.after (hruns hm)]
    rfl
  · intro hall
    have h0 : 0 < (Conc.run ctor (Conc.init env n : Conc α ε) sched).threads.length := by omega
    have hmem := List.getElem_mem h0
    exact hruns (hdone _ hmem (hall _ hmem)).1
  · obtain ⟨more, hmore⟩ := Conc.completes ctor env _ _ hinv (le_refl _)
    exact ⟨more, hmore, by rw [Conc.run_length, hlen]⟩

/-- C2. For every `N ≥ 2` and every schedule of `N` threads that each run the
double-checked-locking `getInstance` on a fresh strategy, with a lock that
admits one holder at a time and loads that see the latest store: at every
moment of the run the constructor has run at most once and all threads that
have returned hold the same non-null pointer to the one constructed object;
when all `N` threads have returned the constructor has run exactly once; and the
run can always be continued until all `N` threads have returned. This holds
for relax, acqrel, seqcst and, whatever the file holds, for `Logger::getInstance`. -/
theorem getInstance_concurrent_constructs_once (N : Nat) (hN : 2 ≤ N) (sched : List Nat) :
    ConstructsOnce relax.Singleton.ctor () N sched ∧
    ConstructsOnce acqrel.Singleton.ctor () N sched ∧
    ConstructsOnce seqcst.Singleton.ctor () N sched ∧
    ∀ file : File, ConstructsOnce Logger.ctor file N sched :=
  ⟨Conc.constructsOnce _ _ N hN sched, Conc.constructsOnce _ _ N hN sched,
    Conc.constructsOnce _ _ N hN sched, fun file => Conc.constructsOnce _ file N hN sched⟩

theorem getInstance_concurrent_constructs_once_witness :
    2 ≤ 2 ∧ ConstructsOnce relax.Singleton.ctor () 2 [0, 1, 1, 0, 1, 1, 1, 0, 1, 0] :=
  ⟨by decide,
    (getInstance_concurrent_constructs_once 2 (by decide) [0, 1, 1, 0, 1, 1, 1, 0, 1, 0]).1⟩

/-- One thread running alone from the fresh state takes the slow path and ends
where the sequential `getInstance` ends: one object, pointer stored, lock free. -/
theorem Conc.solo_run (id : Nat) :
    (Conc.run (fun u : Unit => (({ mId := id } : Singleton), u)) (Conc.init () 1)
      [0, 0, 0, 0, 0, 0]).threads = [{ pc := PC.done, sin := 1 }] ∧
    (Conc.run (fun u : Unit => (({ mId := id } : Singleton), u)) (Conc.init () 1)
      [0, 0, 0, 0, 0, 0]).heap = (dclGetInstance id Statics.fresh true).2.heap ∧
    (Conc.run (fun u : Unit => (({ mId := id } : Singleton), u)) (Conc.init () 1)
      [0, 0, 0, 0, 0, 0]).mInstance = (dclGetInstance id Statics.fresh true).2.mInstance ∧
    (Conc.run (fun u : Unit => (({ mId := id } : Singleton), u)) (Conc.init () 1)
      [0, 0, 0, 0, 0, 0]).ctorRuns = (dclGetInstance id Statics.fresh true).2.ctorRuns ∧
    (Conc.run (fun u : Unit => (({ mId := id } : Singleton), u)) (Conc.init () 1)
      [0, 0, 0, 0, 0, 0]).owner = none ∧
    (dclGetInstance id Statics.fresh true).1 = Outcome.returned (Ref.heap 1) := by
  simp [Conc.run, Conc.step, Conc.init, dclGetInstance, Statics.fresh, Statics.lockGuard,
    Statics.unlock, Statics.newSingleton]

end tvp
